import Mathlib

/-!
Shallow embedding of the progress-tracking core of the easy-vocab
repository: the Known and ToLearn stores (src/stores/known.ts,
src/stores/learn.ts), their load-time legacy migration, the vocab store's
only-new filter, the topic-list fully-known predicate, and the JSON
import/export transcoder of the review screen.

Strings are Lean `String`; JavaScript `word.trim()` is modelled by
`jsTrim` (drop `Char.isWhitespace` from both ends) and `.toLowerCase()`
by `String.toLower`.  JSON values that have already been parsed by
`JSON.parse` are modelled by the inductive `Json`; machine I/O
(localStorage, FileReader) is outside the model, so every operation takes
its inputs explicitly and `new Date().toISOString()` is an explicit
`now : String` argument.
-/

/-- A parsed JSON value (the result of a successful `JSON.parse`). -/
inductive Json where
  | str (s : String)
  | num (n : Int)
  | bool (b : Bool)
  | null
  | arr (items : List Json)
  | obj (fields : List (String × Json))

/-- First binding of `key` in an object's field list (JSON.parse produces
objects without duplicate keys, so first- vs last-wins is immaterial). -/
def lookupField : List (String × Json) → String → Option Json
  | [], _ => none
  | (k, v) :: rest, key => if k == key then some v else lookupField rest key

/-- `j.key` when `j` is an object and the key is present, else `none`
(JavaScript `'key' in j` + member access). -/
def Json.getField : Json → String → Option Json
  | Json.obj fields, key => lookupField fields key
  | _, _ => none

/-- `typeof j.key === 'string' ? j.key : undefined`. -/
def Json.getStr (j : Json) (key : String) : Option String :=
  match j.getField key with
  | some (Json.str s) => some s
  | _ => none

/-- JavaScript `String.prototype.trim`: whitespace removed from both ends
(whitespace class taken as `Char.isWhitespace`). -/
def jsTrim (s : String) : String :=
  String.mk (List.rdropWhile Char.isWhitespace (List.dropWhile Char.isWhitespace s.data))

/-- JavaScript `String.prototype.toLowerCase`, character-wise
(extensionally `String.toLower`, but structurally recursive so that it
evaluates inside the kernel). -/
def jsToLower (s : String) : String :=
  String.mk (s.data.map Char.toLower)

/-- `word.trim().toLowerCase()` — the normalised identity of a word used
by both stores for membership tests. -/
def normWord (w : String) : String :=
  jsToLower (jsTrim w)

/-- One persisted progress record (`LearnItem` / `KnownItem` in
src/types/vocab.ts).  `addedAt` is kept as a `Json` value because
`replaceAll` copies whatever non-null value the imported document holds
(`i.addedAt ?? now`); records created in-app always carry `Json.str ts`. -/
structure Item where
  topicId : String
  word : String
  addedAt : Json

/-- One entry of `getTopicList()` (`TopicMeta` in src/data/topics.ts):
`id` is the topic slug, `topicKey` the composite `typeId/topicSlug`. -/
structure TopicMeta where
  id : String
  name : String
  typeId : String
  topicKey : String
deriving DecidableEq

/-- `i && typeof i === 'object' && typeof i.topicId === 'string' &&
typeof i.word === 'string'` — the record validation of `replaceAll` in
both stores.  A JSON array has `typeof 'object'` but no named fields, so
it fails the field checks. -/
def isValidRecord (j : Json) : Bool :=
  (j.getStr "topicId").isSome && (j.getStr "word").isSome

/-- `i.addedAt ?? now` of `replaceAll`: only `null`/absent is replaced;
any other value (even a non-string one) is kept as-is. -/
def keepAddedAt (j : Json) (now : String) : Json :=
  match j.getField "addedAt" with
  | none => Json.str now
  | some Json.null => Json.str now
  | some v => v

namespace LearnStore

/-- `hasItem` getter of the learn store (src/stores/learn.ts). -/
def hasItem (items : List Item) (topicId word : String) : Bool :=
  items.any fun i => i.topicId == topicId && normWord i.word == normWord word

/-- `add` action of the learn store. -/
def add (items : List Item) (topicId word now : String) : List Item :=
  if hasItem items topicId word then items
  else items ++ [⟨topicId, jsTrim word, Json.str now⟩]

/-- `remove` action of the learn store. -/
def remove (items : List Item) (topicId word : String) : List Item :=
  items.filter fun i => !(i.topicId == topicId && normWord i.word == normWord word)

/-- `clear` action of the learn store. -/
def clear (_items : List Item) : List Item :=
  []

/-- `replaceAll` action of the learn store, on the raw JSON elements of
the imported array: invalid elements dropped, words trimmed, `addedAt`
defaulted to `now` only when null/absent. -/
def replaceAll (raw : List Json) (now : String) : List Item :=
  (raw.filter isValidRecord).map fun j =>
    ⟨(j.getStr "topicId").getD "", jsTrim ((j.getStr "word").getD ""), keepAddedAt j now⟩

/-- `importFromJson` action of the learn store (merge-style import used
by the learn screen): elements without a non-empty trimmed string `word`
are skipped, `topicId` resolved as in `loadFromStorage` (via `topicKey`),
entries already present are skipped, the rest appended. -/
def importFromJson (topics : List TopicMeta) (items : List Item) (parsed : Json)
    (now : String) : List Item :=
  match parsed with
  | Json.arr list =>
    items ++ list.filterMap fun j =>
      match j.getStr "word" with
      | none => none
      | some w0 =>
        let w := jsTrim w0
        if w == "" then none
        else
          let topicId :=
            match j.getStr "topicId" with
            | some s => s
            | none =>
              match j.getStr "topic" with
              | some name =>
                ((topics.find? fun t => t.name == name).map TopicMeta.topicKey).getD name
              | none => "imported"
          if hasItem items topicId w then none
          else some ⟨topicId, w, keepAddedAt j now⟩
  | _ => items

/-- `loadFromStorage` of the learn store on the parsed persisted value:
non-arrays load as empty; elements without a string `word` are dropped;
`topicId` resolved from the `topicId` field, else from the legacy `topic`
display name via `topics.find(t => t.name === name)?.topicKey ?? name`,
else the literal `"imported"`. -/
def loadFromStorage (topics : List TopicMeta) (parsed : Json) (now : String) : List Item :=
  match parsed with
  | Json.arr l =>
    (l.filter fun j => (j.getStr "word").isSome).map fun j =>
      let word := jsTrim ((j.getStr "word").getD "")
      let topicId :=
        match j.getStr "topicId" with
        | some s => s
        | none =>
          match j.getStr "topic" with
          | some name => ((topics.find? fun t => t.name == name).map TopicMeta.topicKey).getD name
          | none => "imported"
      let addedAt :=
        match j.getStr "addedAt" with
        | some s => Json.str s
        | none => Json.str now
      ⟨topicId, word, addedAt⟩
  | _ => []

end LearnStore

namespace KnownStore

/-- `hasKnown` getter of the known store (src/stores/known.ts). -/
def hasKnown (items : List Item) (topicId word : String) : Bool :=
  items.any fun i => i.topicId == topicId && normWord i.word == normWord word

/-- `add` action of the known store. -/
def add (items : List Item) (topicId word now : String) : List Item :=
  if hasKnown items topicId word then items
  else items ++ [⟨topicId, jsTrim word, Json.str now⟩]

/-- `replaceAll` action of the known store (same body as the learn
store's). -/
def replaceAll (raw : List Json) (now : String) : List Item :=
  (raw.filter isValidRecord).map fun j =>
    ⟨(j.getStr "topicId").getD "", jsTrim ((j.getStr "word").getD ""), keepAddedAt j now⟩

/-- `loadFromStorage` of the known store: identical to the learn store's
except that the legacy `topic` display name resolves to
`topics.find(t => t.name === name)?.id ?? name` — the topic slug, not the
composite `topicKey`. -/
def loadFromStorage (topics : List TopicMeta) (parsed : Json) (now : String) : List Item :=
  match parsed with
  | Json.arr l =>
    (l.filter fun j => (j.getStr "word").isSome).map fun j =>
      let word := jsTrim ((j.getStr "word").getD "")
      let topicId :=
        match j.getStr "topicId" with
        | some s => s
        | none =>
          match j.getStr "topic" with
          | some name => ((topics.find? fun t => t.name == name).map TopicMeta.id).getD name
          | none => "imported"
      let addedAt :=
        match j.getStr "addedAt" with
        | some s => Json.str s
        | none => Json.str now
      ⟨topicId, word, addedAt⟩
  | _ => []

end KnownStore

/-- The `JSON.stringify` image of one in-memory record (field order =
declaration order of `LearnItem`/`KnownItem`). -/
def itemJson (i : Item) : Json :=
  Json.obj [("topicId", Json.str i.topicId), ("word", Json.str i.word), ("addedAt", i.addedAt)]

/-- The document built by `exportJson` in the review screen:
`{ learn: learnStore.all, known: knownStore.all }`. -/
def exportDoc (learnItems knownItems : List Item) : Json :=
  Json.obj [("learn", Json.arr (learnItems.map itemJson)),
            ("known", Json.arr (knownItems.map itemJson))]

/-- `Array.isArray(field)` for an optional object field
(`undefined` when the key is absent). -/
def isArrayField (o : Option Json) : Bool :=
  match o with
  | some (Json.arr _) => true
  | _ => false

/-- Outcome of `onFileSelected` after a successful `JSON.parse`: either
the new (learn, known) pair, or the `Invalid format` error (stores
untouched). -/
inductive ImportResult where
  | ok (learnItems knownItems : List Item)
  | invalidFormat

/-- The import dispatch of `onFileSelected` (review screen) on the parsed
JSON value: an object owning a `learn` or `known` key replaces each store
whose field is an array; a bare array is a legacy ToLearn-only import;
anything else is `Invalid format`. -/
def importDoc (parsed : Json) (now : String) (learnItems knownItems : List Item) :
    ImportResult :=
  match parsed with
  | Json.obj fields =>
    if (lookupField fields "learn").isSome || (lookupField fields "known").isSome then
      let newLearn :=
        match lookupField fields "learn" with
        | some (Json.arr l) => LearnStore.replaceAll l now
        | _ => learnItems
      let newKnown :=
        match lookupField fields "known" with
        | some (Json.arr l) => KnownStore.replaceAll l now
        | _ => knownItems
      ImportResult.ok newLearn newKnown
    else ImportResult.invalidFormat
  | Json.arr l => ImportResult.ok (LearnStore.replaceAll l now) knownItems
  | _ => ImportResult.invalidFormat

/-- One catalog vocab entry (`VocabItem` in src/types/vocab.ts);
`partOfSpeech` may be a single tag or a list of tags. -/
inductive PartOfSpeech where
  | one (tag : String)
  | many (tags : List String)

/-- A catalog vocab entry. -/
structure VocabItem where
  word : String
  partOfSpeech : PartOfSpeech
  phonetic : String
  meaning : String
  exampleSentences : Option (List String)

/-- One topic document (`TopicData`): display name plus ordered vocabs. -/
structure TopicData where
  topic : String
  vocabs : List VocabItem

/-- `getTopicData(topicKey)` over the built index, modelled as first
match in an association list of `(topicKey, data)`. -/
def getTopicData (catalog : List (String × TopicData)) (key : String) : Option TopicData :=
  (catalog.find? fun e => e.1 == key).map fun e => e.2

/-- State of the vocab (flashcard) store that the only-new filter
touches. -/
structure VocabState where
  currentTopicId : Option String
  currentIndex : Nat
  customVocabs : Option (List VocabItem)

/-- `setFilterOnlyNew` action of the vocab store: with the flag on,
`customVocabs` becomes the topic's vocab list filtered to words in
neither the learn nor the known store for the current topic id; with the
flag off it is reset to `none`; no-op when no topic is selected. -/
def setFilterOnlyNew (catalog : List (String × TopicData))
    (learnItems knownItems : List Item) (onlyNew : Bool) (s : VocabState) : VocabState :=
  match s.currentTopicId with
  | none => s
  | some tid =>
    let full := ((getTopicData catalog tid).map TopicData.vocabs).getD []
    if onlyNew then
      { s with
        customVocabs := some (full.filter fun w =>
          !(LearnStore.hasItem learnItems tid w.word) &&
          !(KnownStore.hasKnown knownItems tid w.word)),
        currentIndex := 0 }
    else
      { s with customVocabs := none, currentIndex := 0 }

/-- `isTopicFullyKnown` of the topic list screen: false when the topic is
missing or has no vocabs, else every vocab word must be known for that
topic id. -/
def isTopicFullyKnown (catalog : List (String × TopicData))
    (knownItems : List Item) (topicId : String) : Bool :=
  match getTopicData catalog topicId with
  | none => false
  | some data =>
    if data.vocabs.length == 0 then false
    else data.vocabs.all fun v => KnownStore.hasKnown knownItems topicId v.word

/-- A record as the store itself creates them: the word carries no
surrounding whitespace and the timestamp is not JSON `null`. -/
def GoodItem (i : Item) : Prop :=
  jsTrim i.word = i.word ∧ i.addedAt ≠ Json.null

/-- Every record of the store is store-created in the above sense. -/
def GoodStore (S : List Item) : Prop :=
  ∀ i ∈ S, GoodItem i

/-- States of the learn store reachable through its own operations,
starting from what `loadFromStorage` yields. -/
inductive LearnReachable : List Item → Prop where
  | load (topics : List TopicMeta) (parsed : Json) (now : String) :
      LearnReachable (LearnStore.loadFromStorage topics parsed now)
  | add (S : List Item) (t w now : String) :
      LearnReachable S → LearnReachable (LearnStore.add S t w now)
  | remove (S : List Item) (t w : String) :
      LearnReachable S → LearnReachable (LearnStore.remove S t w)
  | clear (S : List Item) :
      LearnReachable S → LearnReachable (LearnStore.clear S)
  | replaceAll (S : List Item) (raw : List Json) (now : String) :
      LearnReachable S → LearnReachable (LearnStore.replaceAll raw now)
  | importFromJson (S : List Item) (topics : List TopicMeta) (parsed : Json) (now : String) :
      LearnReachable S → LearnReachable (LearnStore.importFromJson topics S parsed now)

/-- States of the known store reachable through its own operations (it
exposes only `add` and `replaceAll` besides the initial load). -/
inductive KnownReachable : List Item → Prop where
  | load (topics : List TopicMeta) (parsed : Json) (now : String) :
      KnownReachable (KnownStore.loadFromStorage topics parsed now)
  | add (S : List Item) (t w now : String) :
      KnownReachable S → KnownReachable (KnownStore.add S t w now)
  | replaceAll (S : List Item) (raw : List Json) (now : String) :
      KnownReachable S → KnownReachable (KnownStore.replaceAll raw now)

theorem dropWhile_eq_self_of_isPre {α : Type} {p : α → Bool} {A B : List α}
    (hpre : B <+: A) (hA : List.dropWhile p A = A) : List.dropWhile p B = B := by
  cases B with
  | nil => simp
  | cons b bs =>
    obtain ⟨t, ht⟩ := hpre
    rw [List.cons_append] at ht
    subst ht
    cases hpb : p b with
    | false => rw [List.dropWhile_cons_of_neg (by simp [hpb])]
    | true =>
      rw [List.dropWhile_cons_of_pos (by simp [hpb])] at hA
      have hle := (List.dropWhile_sublist (l := bs ++ t) p).length_le
      rw [hA] at hle
      simp only [List.length_cons] at hle
      exact absurd hle (by omega)

theorem data_mk (l : List Char) : (String.mk l).data = l := rfl

theorem jsTrim_idem (s : String) : jsTrim (jsTrim s) = jsTrim s := by
  unfold jsTrim
  rw [data_mk]
  congr 1
  rw [dropWhile_eq_self_of_isPre ( List.rdropWhile_prefix _ _) (List.dropWhile_idempotent _ _)]
  exact List.rdropWhile_idempotent _ _

theorem normWord_jsTrim (w : String) : normWord (jsTrim w) = normWord w := by
  unfold normWord
  rw [jsTrim_idem]

/-- The two stores share the membership, add and replace code verbatim. -/
theorem hasKnown_eq_hasItem : KnownStore.hasKnown = LearnStore.hasItem := rfl

theorem knownAdd_eq_learnAdd : KnownStore.add = LearnStore.add := rfl

theorem knownReplaceAll_eq_learnReplaceAll :
    KnownStore.replaceAll = LearnStore.replaceAll := rfl

namespace LearnStore

theorem add_of_hasItem (S : List Item) (t w now : String) (h : hasItem S t w = true) :
    add S t w now = S := by
  unfold add
  rw [if_pos h]

theorem add_of_not_hasItem (S : List Item) (t w now : String) (h : hasItem S t w = false) :
    add S t w now = S ++ [⟨t, jsTrim w, Json.str now⟩] := by
  unfold add
  rw [if_neg (by simp [h])]

theorem add_frame (S : List Item) (t w now : String) :
    (hasItem S t w = true ∧ add S t w now = S) ∨
    (hasItem S t w = false ∧ add S t w now = S ++ [⟨t, jsTrim w, Json.str now⟩]) := by
  cases h : hasItem S t w
  · exact Or.inr ⟨rfl, add_of_not_hasItem S t w now h⟩
  · exact Or.inl ⟨rfl, add_of_hasItem S t w now h⟩

theorem hasItem_append (S T : List Item) (t w : String) :
    hasItem (S ++ T) t w = (hasItem S t w || hasItem T t w) := by
  simp [hasItem]

theorem hasItem_add (S : List Item) (t w now : String) :
    hasItem (add S t w now) t w = true := by
  cases h : hasItem S t w
  · rw [add_of_not_hasItem S t w now h, hasItem_append, h]
    simp [hasItem, normWord_jsTrim]
  · rwa [add_of_hasItem S t w now h]

theorem add_idem (S : List Item) (t w n1 n2 : String) :
    add (add S t w n1) t w n2 = add S t w n1 :=
  add_of_hasItem _ t w n2 (hasItem_add S t w n1)

theorem remove_add (S : List Item) (t w w' now : String)
    (h : hasItem S t w = false) (h2 : normWord w = normWord w') :
    remove (add S t w now) t w' = S := by
  rw [add_of_not_hasItem S t w now h]
  unfold remove
  rw [List.filter_append]
  have h' : S.any (fun i => i.topicId == t && normWord i.word == normWord w) = false := h
  have hS : List.filter
      (fun (i : Item) => !(i.topicId == t && normWord i.word == normWord w')) S = S := by
    rw [List.filter_eq_self]
    intro i hi
    have hf := List.any_eq_false.mp h' i hi
    rw [Bool.not_eq_true', ← h2]
    exact Bool.eq_false_iff.mpr hf
  have hnew : List.filter
      (fun (i : Item) => !(i.topicId == t && normWord i.word == normWord w'))
      [(⟨t, jsTrim w, Json.str now⟩ : Item)] = [] := by
    simp [normWord_jsTrim, h2]
  rw [hS, hnew, List.append_nil]

end LearnStore

theorem goodStore_nil : GoodStore [] := by
  intro i hi
  cases hi

theorem goodItem_new (t w now : String) : GoodItem ⟨t, jsTrim w, Json.str now⟩ :=
  ⟨jsTrim_idem w, by simp⟩

theorem keepAddedAt_ne_null (j : Json) (now : String) : keepAddedAt j now ≠ Json.null := by
  unfold keepAddedAt
  cases hj : j.getField "addedAt" with
  | none => simp
  | some v => cases v <;> simp

theorem goodStore_add {S : List Item} (hS : GoodStore S) (t w now : String) :
    GoodStore (LearnStore.add S t w now) := by
  rcases LearnStore.add_frame S t w now with ⟨_, he⟩ | ⟨_, he⟩ <;> rw [he]
  · exact hS
  · intro i hi
    rcases List.mem_append.mp hi with h1 | h1
    · exact hS i h1
    · have h2 : i = ⟨t, jsTrim w, Json.str now⟩ := List.mem_singleton.mp h1
      subst h2
      exact goodItem_new t w now

theorem goodStore_remove {S : List Item} (hS : GoodStore S) (t w : String) :
    GoodStore (LearnStore.remove S t w) := by
  intro i hi
  unfold LearnStore.remove at hi
  exact hS i (List.mem_filter.mp hi).1

theorem goodStore_replaceAll (raw : List Json) (now : String) :
    GoodStore (LearnStore.replaceAll raw now) := by
  intro i hi
  unfold LearnStore.replaceAll at hi
  rcases List.mem_map.mp hi with ⟨j, hj, rfl⟩
  exact ⟨jsTrim_idem _, keepAddedAt_ne_null j now⟩

theorem goodStore_load (topics : List TopicMeta) (parsed : Json) (now : String) :
    GoodStore (LearnStore.loadFromStorage topics parsed now) := by
  intro i hi
  unfold LearnStore.loadFromStorage at hi
  cases parsed <;> simp only [List.not_mem_nil] at hi
  case arr l =>
    rcases List.mem_map.mp hi with ⟨j, hj, rfl⟩
    refine ⟨jsTrim_idem _, ?_⟩
    cases hjs : j.getStr "addedAt" <;> simp [hjs]

theorem goodStore_known_load (topics : List TopicMeta) (parsed : Json) (now : String) :
    GoodStore (KnownStore.loadFromStorage topics parsed now) := by
  intro i hi
  unfold KnownStore.loadFromStorage at hi
  cases parsed <;> simp only [List.not_mem_nil] at hi
  case arr l =>
    rcases List.mem_map.mp hi with ⟨j, hj, rfl⟩
    refine ⟨jsTrim_idem _, ?_⟩
    cases hjs : j.getStr "addedAt" <;> simp [hjs]

theorem goodStore_importFromJson {S : List Item} (hS : GoodStore S)
    (topics : List TopicMeta) (parsed : Json) (now : String) :
    GoodStore (LearnStore.importFromJson topics S parsed now) := by
  intro i hi
  unfold LearnStore.importFromJson at hi
  cases parsed <;> try exact hS i hi
  case arr list =>
    rcases List.mem_append.mp hi with h1 | h1
    · exact hS i h1
    · rcases List.mem_filterMap.mp h1 with ⟨j, hj, hf⟩
      cases hw : j.getStr "word" with
      | none => rw [hw] at hf; cases hf
      | some w0 =>
        rw [hw] at hf
        simp only at hf
        by_cases hemp : (jsTrim w0 == "") = true
        · rw [if_pos hemp] at hf; cases hf
        · rw [if_neg hemp] at hf
          split at hf
          · cases hf
          · cases hf
            exact ⟨jsTrim_idem _, keepAddedAt_ne_null j now⟩

theorem learnReachable_good {S : List Item} (h : LearnReachable S) : GoodStore S := by
  induction h with
  | load topics parsed now => exact goodStore_load topics parsed now
  | add S t w now _ ih => exact goodStore_add ih t w now
  | remove S t w _ ih => exact goodStore_remove ih t w
  | clear S _ _ => exact goodStore_nil
  | replaceAll S raw now _ _ => exact goodStore_replaceAll raw now
  | importFromJson S topics parsed now _ ih => exact goodStore_importFromJson ih topics parsed now

theorem knownReachable_good {S : List Item} (h : KnownReachable S) : GoodStore S := by
  induction h with
  | load topics parsed now => exact goodStore_known_load topics parsed now
  | add S t w now _ ih =>
    rw [knownAdd_eq_learnAdd]
    exact goodStore_add ih t w now
  | replaceAll S raw now _ _ =>
    rw [knownReplaceAll_eq_learnReplaceAll]
    exact goodStore_replaceAll raw now

theorem isValidRecord_itemJson (i : Item) : isValidRecord (itemJson i) = true := rfl

theorem getField_itemJson_addedAt (i : Item) :
    (itemJson i).getField "addedAt" = some i.addedAt := rfl

theorem keepAddedAt_itemJson (i : Item) (now : String) (h : i.addedAt ≠ Json.null) :
    keepAddedAt (itemJson i) now = i.addedAt := by
  unfold keepAddedAt
  rw [getField_itemJson_addedAt]
  cases hv : i.addedAt
  case null => exact absurd hv h
  all_goals rfl

theorem replaceAll_cons_itemJson (i : Item) (rest : List Json) (now : String)
    (hw : jsTrim i.word = i.word) (ha : i.addedAt ≠ Json.null) :
    LearnStore.replaceAll (itemJson i :: rest) now = i :: LearnStore.replaceAll rest now := by
  unfold LearnStore.replaceAll
  rw [List.filter_cons_of_pos (isValidRecord_itemJson i), List.map_cons]
  congr 1
  show (⟨((itemJson i).getStr "topicId").getD "",
        jsTrim (((itemJson i).getStr "word").getD ""), keepAddedAt (itemJson i) now⟩ : Item) = i
  rw [show (itemJson i).getStr "topicId" = some i.topicId from rfl,
    show (itemJson i).getStr "word" = some i.word from rfl,
    Option.getD_some, Option.getD_some, hw, keepAddedAt_itemJson i now ha]

theorem replaceAll_map_itemJson (S : List Item) (now : String) (hS : GoodStore S) :
    LearnStore.replaceAll (S.map itemJson) now = S := by
  induction S with
  | nil => rfl
  | cons i rest ih =>
    rw [List.map_cons,
      replaceAll_cons_itemJson i _ now (hS i (List.mem_cons_self i rest)).1
        (hS i (List.mem_cons_self i rest)).2,
      ih fun x hx => hS x (List.mem_cons_of_mem i hx)]

example : jsTrim " Dog " = "Dog" := rfl
example : normWord " Dog " = "dog" := rfl
example : LearnStore.add [] "t1" "Dog" "2024" = [⟨"t1", "Dog", Json.str "2024"⟩] := rfl
example : LearnStore.remove (LearnStore.add [] "t1" "Dog" "2024") "t1" "dog" = [] := rfl

/-- C1 (counterexample): importing the parsed text `["abc"]` does NOT
fail with InvalidFormat and does NOT leave the ToLearn store unchanged:
the bare array takes the legacy ToLearn-import branch, every element
fails record validation, and the ToLearn store is replaced by the empty
sequence while Known is untouched. -/
theorem import_nonrecord_array_counterexample :
    importDoc (Json.arr [Json.str "abc"]) "2024-01-01T00:00:00.000Z"
        [⟨"t1", "dog", Json.str "d1"⟩] []
      = ImportResult.ok [] [] ∧
    ImportResult.ok ([] : List Item) [] ≠ ImportResult.invalidFormat ∧
    ([] : List Item) ≠ [⟨"t1", "dog", Json.str "d1"⟩] :=
  ⟨rfl, fun hcon => ImportResult.noConfusion hcon, fun hcon => List.noConfusion hcon⟩

/-- C1 (amended): importing the parsed text `["abc"]` succeeds as a
legacy ToLearn-only import: no InvalidFormat error; the ToLearn store is
replaced by the empty sequence (no element validates as a record) and the
Known store is left unchanged. -/
theorem import_nonrecord_array (L K : List Item) (now : String) :
    importDoc (Json.arr [Json.str "abc"]) now L K = ImportResult.ok [] K := rfl

/-- C2 (counterexample): with the catalog topic
`{id := "animals", name := "Animals", typeId := "basic",
topicKey := "basic/animals"}`, the Known store migrates the legacy record
`{"topic": "Animals", "word": "Cat"}` to topic key `"animals"` (the
topic's `id` slug), not to the resolved composite key `"basic/animals"`
as the claim states for both stores. -/
theorem known_migration_slug_counterexample :
    KnownStore.loadFromStorage [⟨"animals", "Animals", "basic", "basic/animals"⟩]
        (Json.arr [Json.obj [("topic", Json.str "Animals"), ("word", Json.str "Cat")]]) "now"
      = [⟨"animals", "Cat", Json.str "now"⟩] ∧
    ("animals" : String) ≠ "basic/animals" :=
  ⟨rfl, by decide⟩

/-- C2 (amended): on load, a record carrying a legacy `topic` display
name and no `topicId` resolves by exact name match against the catalog
topic list; the ToLearn store uses the matched topic's composite
`topicKey`, the Known store uses the matched topic's `id` slug; both fall
back to the raw display name when no topic matches. -/
theorem legacy_topic_migration (topics : List TopicMeta) (name word now : String) :
    (∀ t, topics.find? (fun tm => tm.name == name) = some t →
      KnownStore.loadFromStorage topics
          (Json.arr [Json.obj [("topic", Json.str name), ("word", Json.str word)]]) now
        = [⟨t.id, jsTrim word, Json.str now⟩] ∧
      LearnStore.loadFromStorage topics
          (Json.arr [Json.obj [("topic", Json.str name), ("word", Json.str word)]]) now
        = [⟨t.topicKey, jsTrim word, Json.str now⟩]) ∧
    (topics.find? (fun tm => tm.name == name) = none →
      KnownStore.loadFromStorage topics
          (Json.arr [Json.obj [("topic", Json.str name), ("word", Json.str word)]]) now
        = [⟨name, jsTrim word, Json.str now⟩] ∧
      LearnStore.loadFromStorage topics
          (Json.arr [Json.obj [("topic", Json.str name), ("word", Json.str word)]]) now
        = [⟨name, jsTrim word, Json.str now⟩]) := by
  constructor
  · intro t ht
    constructor
    · show [(⟨((topics.find? fun tm => tm.name == name).map TopicMeta.id).getD name,
          jsTrim word, Json.str now⟩ : Item)] = _
      rw [ht]
      rfl
    · show [(⟨((topics.find? fun tm => tm.name == name).map TopicMeta.topicKey).getD name,
          jsTrim word, Json.str now⟩ : Item)] = _
      rw [ht]
      rfl
  · intro ht
    constructor
    · show [(⟨((topics.find? fun tm => tm.name == name).map TopicMeta.id).getD name,
          jsTrim word, Json.str now⟩ : Item)] = _
      rw [ht]
      rfl
    · show [(⟨((topics.find? fun tm => tm.name == name).map TopicMeta.topicKey).getD name,
          jsTrim word, Json.str now⟩ : Item)] = _
      rw [ht]
      rfl

/-- C2 (witness): the amended migration evaluated on the topic
"Animals". -/
theorem legacy_topic_migration_witness :
    KnownStore.loadFromStorage [⟨"animals", "Animals", "basic", "basic/animals"⟩]
        (Json.arr [Json.obj [("topic", Json.str "Animals"), ("word", Json.str "Cat")]]) "now"
      = [⟨"animals", "Cat", Json.str "now"⟩] ∧
    LearnStore.loadFromStorage [⟨"animals", "Animals", "basic", "basic/animals"⟩]
        (Json.arr [Json.obj [("topic", Json.str "Animals"), ("word", Json.str "Cat")]]) "now"
      = [⟨"basic/animals", "Cat", Json.str "now"⟩] :=
  (legacy_topic_migration [⟨"animals", "Animals", "basic", "basic/animals"⟩]
      "Animals" "Cat" "now").1
    ⟨"animals", "Animals", "basic", "basic/animals"⟩ rfl

/-- C3 (counterexample): a legacy record whose `topic` display name
matches no catalog topic does NOT get the literal topic key "imported":
with an empty catalog, `{"topic": "Zebras", "word": "Cat"}` loads with
topic key "Zebras" (the raw display name). -/
theorem unmatched_topic_counterexample :
    KnownStore.loadFromStorage []
        (Json.arr [Json.obj [("topic", Json.str "Zebras"), ("word", Json.str "Cat")]]) "now"
      = [⟨"Zebras", "Cat", Json.str "now"⟩] ∧
    ("Zebras" : String) ≠ "imported" :=
  ⟨rfl, by decide⟩

/-- C3 (amended): on load, a record whose legacy `topic` display name
matches no catalog topic is migrated with the raw display name as topic
key, in both stores; the literal "imported" is used only for records that
carry neither a `topicId` nor a `topic` field. -/
theorem unmatched_topic_migration (topics : List TopicMeta) (name word now : String)
    (h : topics.find? (fun t => t.name == name) = none) :
    KnownStore.loadFromStorage topics
        (Json.arr [Json.obj [("topic", Json.str name), ("word", Json.str word)]]) now
      = [⟨name, jsTrim word, Json.str now⟩] ∧
    LearnStore.loadFromStorage topics
        (Json.arr [Json.obj [("topic", Json.str name), ("word", Json.str word)]]) now
      = [⟨name, jsTrim word, Json.str now⟩] ∧
    KnownStore.loadFromStorage topics
        (Json.arr [Json.obj [("word", Json.str word)]]) now
      = [⟨"imported", jsTrim word, Json.str now⟩] ∧
    LearnStore.loadFromStorage topics
        (Json.arr [Json.obj [("word", Json.str word)]]) now
      = [⟨"imported", jsTrim word, Json.str now⟩] := by
  refine ⟨?_, ?_, rfl, rfl⟩
  · show [(⟨((topics.find? fun t => t.name == name).map TopicMeta.id).getD name,
        jsTrim word, Json.str now⟩ : Item)] = _
    rw [h]
    rfl
  · show [(⟨((topics.find? fun t => t.name == name).map TopicMeta.topicKey).getD name,
        jsTrim word, Json.str now⟩ : Item)] = _
    rw [h]
    rfl

/-- C3 (witness): the amended migration evaluated on the unmatched name
"Zebras" against the empty catalog. -/
theorem unmatched_topic_migration_witness :
    KnownStore.loadFromStorage []
        (Json.arr [Json.obj [("topic", Json.str "Zebras"), ("word", Json.str "Cat")]]) "now"
      = [⟨"Zebras", "Cat", Json.str "now"⟩] ∧
    LearnStore.loadFromStorage []
        (Json.arr [Json.obj [("topic", Json.str "Zebras"), ("word", Json.str "Cat")]]) "now"
      = [⟨"Zebras", "Cat", Json.str "now"⟩] ∧
    KnownStore.loadFromStorage []
        (Json.arr [Json.obj [("word", Json.str "Cat")]]) "now"
      = [⟨"imported", "Cat", Json.str "now"⟩] ∧
    LearnStore.loadFromStorage []
        (Json.arr [Json.obj [("word", Json.str "Cat")]]) "now"
      = [⟨"imported", "Cat", Json.str "now"⟩] :=
  unmatched_topic_migration [] "Zebras" "Cat" "now" rfl

/-- C4: the Known store's `add` never removes or alters an existing
record: it either leaves the record sequence exactly unchanged (when a
case-insensitive/trimmed match is present, i.e. `hasKnown` is true) or
appends exactly one new record at the end.  (That the Known store exposes
no `remove`/`clear` action is visible in its embedded operation set:
`hasKnown`, `add`, `replaceAll`, `loadFromStorage` only, matching
src/stores/known.ts, unlike the ToLearn store.) -/
theorem known_add_frame (S : List Item) (t w now : String) :
    (KnownStore.hasKnown S t w = true ∧ KnownStore.add S t w now = S) ∨
    (KnownStore.hasKnown S t w = false ∧
      KnownStore.add S t w now = S ++ [⟨t, jsTrim w, Json.str now⟩]) := by
  rw [knownAdd_eq_learnAdd, hasKnown_eq_hasItem]
  exact LearnStore.add_frame S t w now

/-- C5: for every pair of store states reachable through the stores' own
operations, importing the exported document
`{ learn: <ToLearn.all>, known: <Known.all> }` reproduces exactly the
same pair of record sequences, every `addedAt` preserved. -/
theorem export_import_roundtrip (L K : List Item)
    (hL : LearnReachable L) (hK : KnownReachable K) (now : String) :
    importDoc (exportDoc L K) now L K = ImportResult.ok L K := by
  have gL : GoodStore L := learnReachable_good hL
  have gK : GoodStore K := knownReachable_good hK
  have he : importDoc (exportDoc L K) now L K =
      ImportResult.ok (LearnStore.replaceAll (L.map itemJson) now)
        (KnownStore.replaceAll (K.map itemJson) now) := rfl
  rw [he, knownReplaceAll_eq_learnReplaceAll, replaceAll_map_itemJson L now gL,
    replaceAll_map_itemJson K now gK]

/-- C5 (witness): the round-trip evaluated on a one-record ToLearn store
and an empty Known store. -/
theorem export_import_roundtrip_witness :
    importDoc (exportDoc (LearnStore.add [] "t1" "Dog" "2024-01-01") []) "2025-05-05"
        (LearnStore.add [] "t1" "Dog" "2024-01-01") []
      = ImportResult.ok (LearnStore.add [] "t1" "Dog" "2024-01-01") [] :=
  export_import_roundtrip (LearnStore.add [] "t1" "Dog" "2024-01-01") []
    (LearnReachable.add [] "t1" "Dog" "2024-01-01"
      (LearnReachable.load [] Json.null "x"))
    (KnownReachable.load [] Json.null "x") "2025-05-05"

/-- C6: importing an object document whose `known` field is an array
while `learn` is absent or not an array replaces only the Known store and
leaves ToLearn completely unchanged; symmetrically, with `learn` an array
and `known` absent or not an array, only ToLearn is replaced and Known is
untouched (partial import). -/
theorem partial_import (fields : List (String × Json)) (L K : List Item)
    (now : String) (ks ls : List Json) :
    (lookupField fields "known" = some (Json.arr ks) →
      isArrayField (lookupField fields "learn") = false →
      importDoc (Json.obj fields) now L K
        = ImportResult.ok L (KnownStore.replaceAll ks now)) ∧
    (lookupField fields "learn" = some (Json.arr ls) →
      isArrayField (lookupField fields "known") = false →
      importDoc (Json.obj fields) now L K
        = ImportResult.ok (LearnStore.replaceAll ls now) K) := by
  constructor
  · intro hk hl
    cases hx : lookupField fields "learn" with
    | none => simp [importDoc, hk, hx]
    | some v =>
      rw [hx] at hl
      cases v <;> simp [isArrayField] at hl <;> simp [importDoc, hk, hx]
  · intro hl hk
    cases hx : lookupField fields "known" with
    | none => simp [importDoc, hl, hx]
    | some v =>
      rw [hx] at hk
      cases v <;> simp [isArrayField] at hk <;> simp [importDoc, hl, hx]

/-- C6 (witness): importing `{"known": []}` on a one-record ToLearn store
replaces Known and leaves ToLearn untouched. -/
theorem partial_import_witness :
    importDoc (Json.obj [("known", Json.arr [])]) "2024-01-01"
        [⟨"t1", "dog", Json.str "d1"⟩] [⟨"t2", "cat", Json.str "d2"⟩]
      = ImportResult.ok [⟨"t1", "dog", Json.str "d1"⟩]
          (KnownStore.replaceAll [] "2024-01-01") :=
  (partial_import [("known", Json.arr [])] [⟨"t1", "dog", Json.str "d1"⟩]
    [⟨"t2", "cat", Json.str "d2"⟩] "2024-01-01" [] []).1 rfl rfl

/-- C7: `add` is idempotent in both stores: a second `add` with the same
(topicKey, word) is a no-op, whatever timestamps the two calls see,
because the membership test normalises the trimmed, lower-cased word. -/
theorem add_twice_eq_add_once (S : List Item) (t w n1 n2 : String) :
    LearnStore.add (LearnStore.add S t w n1) t w n2 = LearnStore.add S t w n1 ∧
    KnownStore.add (KnownStore.add S t w n1) t w n2 = KnownStore.add S t w n1 := by
  constructor
  · exact LearnStore.add_idem S t w n1 n2
  · rw [knownAdd_eq_learnAdd]
    exact LearnStore.add_idem S t w n1 n2

/-- C8: in the ToLearn store, removing right after adding restores the
original state, provided the pair was not already present; the removal
word may differ in case/whitespace from the added one since both are
normalised. -/
theorem remove_add_roundtrip (S : List Item) (k w w' now : String)
    (h : LearnStore.hasItem S k w = false) (h2 : normWord w = normWord w') :
    LearnStore.remove (LearnStore.add S k w now) k w' = S :=
  LearnStore.remove_add S k w w' now h h2

/-- C8 (witness): from the empty store, add("t1","Dog") then
remove("t1","dog") leaves the store empty. -/
theorem remove_add_roundtrip_witness :
    LearnStore.hasItem [] "t1" "Dog" = false ∧ normWord "Dog" = normWord "dog" ∧
    LearnStore.remove (LearnStore.add [] "t1" "Dog" "2024-01-01") "t1" "dog" = [] :=
  ⟨rfl, rfl, remove_add_roundtrip [] "t1" "Dog" "dog" "2024-01-01" rfl rfl⟩

/-- C9: with the only-new flag on and a selected topic present in the
catalog, the active word list is exactly the topic's catalog-ordered
vocab sequence restricted to entries whose normalised word occurs in
neither the ToLearn nor the Known store for that topic id, with the
original order preserved (a sublist of the catalog sequence). -/
theorem only_new_filter (catalog : List (String × TopicData))
    (learnItems knownItems : List Item) (s : VocabState) (tid : String) (topic : TopicData)
    (h1 : s.currentTopicId = some tid) (h2 : getTopicData catalog tid = some topic) :
    ∃ l, (setFilterOnlyNew catalog learnItems knownItems true s).customVocabs = some l ∧
      List.Sublist l topic.vocabs ∧
      ∀ v, v ∈ l ↔ v ∈ topic.vocabs ∧
        (¬ ∃ i ∈ learnItems, i.topicId = tid ∧ normWord i.word = normWord v.word) ∧
        (¬ ∃ i ∈ knownItems, i.topicId = tid ∧ normWord i.word = normWord v.word) := by
  unfold setFilterOnlyNew
  simp only [h1, h2, Option.map_some', Option.getD_some, if_true]
  refine ⟨_, rfl, List.filter_sublist topic.vocabs, ?_⟩
  intro v
  rw [List.mem_filter]
  simp [LearnStore.hasItem, KnownStore.hasKnown]

/-- C9 (witness): topic with words [a, b, c], Known = {a}, ToLearn = {b}:
the filtered list exists and satisfies the characterisation (hence it is
exactly [c]). -/
theorem only_new_filter_witness :
    ∃ l, (setFilterOnlyNew
        [("k", ⟨"T", [⟨"a", PartOfSpeech.one "n", "", "", none⟩,
                      ⟨"b", PartOfSpeech.one "n", "", "", none⟩,
                      ⟨"c", PartOfSpeech.one "n", "", "", none⟩]⟩)]
        [⟨"k", "b", Json.str "x"⟩] [⟨"k", "a", Json.str "y"⟩] true
        ⟨some "k", 0, none⟩).customVocabs = some l ∧
      List.Sublist l [⟨"a", PartOfSpeech.one "n", "", "", none⟩,
                      ⟨"b", PartOfSpeech.one "n", "", "", none⟩,
                      ⟨"c", PartOfSpeech.one "n", "", "", none⟩] ∧
      ∀ v, v ∈ l ↔ v ∈ [⟨"a", PartOfSpeech.one "n", "", "", none⟩,
                        ⟨"b", PartOfSpeech.one "n", "", "", none⟩,
                        ⟨"c", PartOfSpeech.one "n", "", "", none⟩] ∧
        (¬ ∃ i ∈ [(⟨"k", "b", Json.str "x"⟩ : Item)],
          i.topicId = "k" ∧ normWord i.word = normWord v.word) ∧
        (¬ ∃ i ∈ [(⟨"k", "a", Json.str "y"⟩ : Item)],
          i.topicId = "k" ∧ normWord i.word = normWord v.word) :=
  only_new_filter
    [("k", ⟨"T", [⟨"a", PartOfSpeech.one "n", "", "", none⟩,
                  ⟨"b", PartOfSpeech.one "n", "", "", none⟩,
                  ⟨"c", PartOfSpeech.one "n", "", "", none⟩]⟩)]
    [⟨"k", "b", Json.str "x"⟩] [⟨"k", "a", Json.str "y"⟩]
    ⟨some "k", 0, none⟩ "k"
    ⟨"T", [⟨"a", PartOfSpeech.one "n", "", "", none⟩,
           ⟨"b", PartOfSpeech.one "n", "", "", none⟩,
           ⟨"c", PartOfSpeech.one "n", "", "", none⟩]⟩ rfl rfl

/-- C10: the fully-known predicate holds iff the topic exists in the
catalog, has at least one vocab entry, and every entry's word has a
matching Known record (same topic id, equal normalised word); a missing
or empty topic is never fully known. -/
theorem fully_known_iff (catalog : List (String × TopicData)) (knownItems : List Item)
    (tid : String) :
    isTopicFullyKnown catalog knownItems tid = true ↔
      ∃ data, getTopicData catalog tid = some data ∧ data.vocabs ≠ [] ∧
        ∀ v ∈ data.vocabs, ∃ i ∈ knownItems, i.topicId = tid ∧
          normWord i.word = normWord v.word := by
  unfold isTopicFullyKnown
  cases h : getTopicData catalog tid with
  | none => simp
  | some data =>
    simp only [Option.some.injEq]
    by_cases hv : data.vocabs = []
    · simp [hv]
    · have hlen : (data.vocabs.length == 0) = false := by
        simp [List.length_eq_zero, hv]
      rw [if_neg (by simp [hlen])]
      simp [KnownStore.hasKnown, hv]

/-- C10 (witness): a one-word topic whose word is Known is fully known;
the characterisation instantiated by evaluating the predicate. -/
theorem fully_known_iff_witness :
    ∃ data, getTopicData [("k", ⟨"T", [⟨"a", PartOfSpeech.one "n", "", "", none⟩]⟩)] "k"
        = some data ∧
      data.vocabs ≠ [] ∧
      ∀ v ∈ data.vocabs, ∃ i ∈ [(⟨"k", "a", Json.str "x"⟩ : Item)],
        i.topicId = "k" ∧ normWord i.word = normWord v.word :=
  (fully_known_iff [("k", ⟨"T", [⟨"a", PartOfSpeech.one "n", "", "", none⟩]⟩)]
    [⟨"k", "a", Json.str "x"⟩] "k").mp rfl
